import Mathlib

/-!
# Verification of `pmf_cy.pyx` (Probabilistic Matrix Factorization)

A shallow embedding of the class `ProbabilisticMatrixFactorization` from
`pmf_cy.pyx`.  Machine floats are modelled as real numbers, numpy arrays of
factors as functions `ℕ → ℕ → ℝ` together with explicitly tracked dimensions,
the rating array as a list of `(row, col, value)` triples (the constructor
checks that every rating tuple has exactly three fields, so the typed triple
captures all states reachable past that check), and the Python `set` objects
`rated` / `unrated` as `Finset (ℕ × ℕ)`.  Exceptions are modelled by an
explicit error type: every operation that can raise returns the pre-raise
state paired with `Option PMFErr`, mirroring the fact that in the source all
`raise`/`assert` statements execute before any field is mutated.
-/

noncomputable section

open Finset

/-- A rating triple `(row index, column index, value)` (`pmf_cy.pyx` stores
rows of the `ratings` array; the constructor enforces arity 3). -/
abbrev Rating : Type := ℕ × ℕ × ℝ

/-- A dense 2-D numpy array, modelled as a function out of indices; the
dimensions actually used are carried by the model fields. -/
abbrev Mat : Type := ℕ → ℕ → ℝ

/-- The errors the embedded operations can raise:
`badShape` (`TypeError("bad shape for extra")` / `"invalid rating tuple length"`),
`assertFail` (the two `assert np.max(...) <= ...` bounds checks in
`add_ratings`), and `duplicateRating`
(`ValueError("can't rate already rated items")`). -/
inductive PMFErr : Type where
  | badShape : PMFErr
  | assertFail : PMFErr
  | duplicateRating : PMFErr
deriving DecidableEq

/-- State of a `ProbabilisticMatrixFactorization` object: one field per
`cdef public` attribute of the class. -/
@[ext]
structure Model : Type where
  latent_d : ℕ
  num_users : ℕ
  num_items : ℕ
  learning_rate : ℝ
  min_learning_rate : ℝ
  stop_thresh : ℝ
  sigma_sq : ℝ
  sigma_u_sq : ℝ
  sigma_v_sq : ℝ
  ratings : List Rating
  users : Mat
  items : Mat
  rated : Finset (ℕ × ℕ)
  unrated : Finset (ℕ × ℕ)

/-- `np.max` over the first column of a nonempty rating array
(`np.max(self.ratings[:, 0])`). -/
def maxRow (rts : List Rating) : ℕ :=
  rts.foldr (fun r acc => max r.1 acc) 0

/-- `np.max` over the second column of a nonempty rating array. -/
def maxCol (rts : List Rating) : ℕ :=
  rts.foldr (fun r acc => max r.2.1 acc) 0

/-- `set(map(tuple, a[:, :2]))`: the `(row, col)` pairs of a rating array. -/
def pairsOf (rts : List Rating) : Finset (ℕ × ℕ) :=
  (rts.map (fun r => (r.1, r.2.1))).toFinset

/-- `set(itertools.product(range(n), range(m)))`: the full index grid. -/
def grid (n m : ℕ) : Finset (ℕ × ℕ) :=
  Finset.range n ×ˢ Finset.range m

/-- `__cinit__` together with `__init__(rating_tuples, latent_d)`.  The two
uniform-random factor matrices drawn by `np.random.random` are passed in as
explicit parameters `randU`, `randV`.  An empty rating array makes
`self.ratings.shape[1]` (and `np.max`) raise, modelled by `none`. -/
def init (rts : List Rating) (latent_d : ℕ) (randU randV : Mat) : Option Model :=
  if rts.isEmpty then none
  else
    some
      { latent_d := latent_d
        num_users := maxRow rts + 1
        num_items := maxCol rts + 1
        learning_rate := 1e-4
        min_learning_rate := 1e-10
        stop_thresh := 1e-2
        sigma_sq := 1
        sigma_u_sq := 10
        sigma_v_sq := 10
        ratings := rts
        users := randU
        items := randV
        rated := pairsOf rts
        unrated := grid (maxRow rts + 1) (maxCol rts + 1) \ pairsOf rts }

/-- The dictionary built by `__getstate__`: one named entry per field. -/
@[ext]
structure StateDict : Type where
  latent_d : ℕ
  num_users : ℕ
  num_items : ℕ
  learning_rate : ℝ
  min_learning_rate : ℝ
  stop_thresh : ℝ
  sigma_sq : ℝ
  sigma_u_sq : ℝ
  sigma_v_sq : ℝ
  ratings : List Rating
  users : Mat
  items : Mat
  rated : Finset (ℕ × ℕ)
  unrated : Finset (ℕ × ℕ)

/-- `__getstate__`: collect every field into the state dictionary. -/
def getstate (m : Model) : StateDict :=
  { latent_d := m.latent_d
    num_users := m.num_users
    num_items := m.num_items
    learning_rate := m.learning_rate
    min_learning_rate := m.min_learning_rate
    stop_thresh := m.stop_thresh
    sigma_sq := m.sigma_sq
    sigma_u_sq := m.sigma_u_sq
    sigma_v_sq := m.sigma_v_sq
    ratings := m.ratings
    users := m.users
    items := m.items
    rated := m.rated
    unrated := m.unrated }

/-- `__setstate__`: `setattr` on the receiver for every key of the dict. -/
def setstate (m : Model) (st : StateDict) : Model :=
  { m with
    latent_d := st.latent_d
    num_users := st.num_users
    num_items := st.num_items
    learning_rate := st.learning_rate
    min_learning_rate := st.min_learning_rate
    stop_thresh := st.stop_thresh
    sigma_sq := st.sigma_sq
    sigma_u_sq := st.sigma_u_sq
    sigma_v_sq := st.sigma_v_sq
    ratings := st.ratings
    users := st.users
    items := st.items
    rated := st.rated
    unrated := st.unrated }

/-- `__copy__`: rebuild from `(self.ratings, self.latent_d)` — drawing fresh
random factors `randU`, `randV` — then `res.__setstate__(res.__getstate__())`. -/
def copyModel (m : Model) (randU randV : Mat) : Option Model :=
  (init m.ratings m.latent_d randU randV).map (fun res => setstate res (getstate res))

/-- `add_ratings(extra)`.  The arity check (`extra.shape[1] != cols`) is made
statically true by the `Rating` triple type, so the `badShape` branch cannot
fire here; the two bounds asserts and the `unrated`-subset check run in source
order, all before any field is mutated. -/
def add_ratings (m : Model) (extra : List Rating) : Model × Option PMFErr :=
  if ¬ (∀ r ∈ extra, r.1 + 1 ≤ m.num_users) then (m, some PMFErr.assertFail)
  else if ¬ (∀ r ∈ extra, r.2.1 + 1 ≤ m.num_items) then (m, some PMFErr.assertFail)
  else if ¬ (pairsOf extra ⊆ m.unrated) then (m, some PMFErr.duplicateRating)
  else
    ({ m with
        rated := m.rated ∪ pairsOf extra
        unrated := m.unrated \ pairsOf extra
        ratings := m.ratings ++ extra }, none)

/-- `add_rating(i, j, rating)` delegates to `add_ratings`. -/
def add_rating (m : Model) (i j : ℕ) (v : ℝ) : Model × Option PMFErr :=
  add_ratings m [(i, j, v)]

/-- `np.dot(u, v)` for two latent vectors of length `d`. -/
def dotvec (d : ℕ) (u v : ℕ → ℝ) : ℝ :=
  ∑ k in Finset.range d, u k * v k

/-- `np.linalg.norm(A)` for a 2-D array of shape `rows × cols`: the Frobenius
norm, i.e. the square root of the sum of the squared entries. -/
def npnorm (rows cols : ℕ) (A : Mat) : ℝ :=
  Real.sqrt (∑ i in Finset.range rows, ∑ k in Finset.range cols, (A i k) ^ 2)

/-- `log_likelihood(users, items)`.  `sq_error` is accumulated over the rating
rows exactly as in the source loop; note that the source computes
`item_norm = np.linalg.norm(users)` (line 147), so both penalty terms are
built from the row-factor matrix, and neither norm is squared. -/
def log_likelihood (m : Model) (users items : Mat) : ℝ :=
  -(m.ratings.foldl
      (fun sq_error t => sq_error + (t.2.2 - dotvec m.latent_d (users t.1) (items t.2.1)) ^ 2)
      0) / (2 * m.sigma_sq)
    - npnorm m.num_users m.latent_d users / (2 * m.sigma_u_sq)
    - npnorm m.num_users m.latent_d users / (2 * m.sigma_v_sq)

/-- `log_likelihood()` with both arguments defaulted to the current factors. -/
def log_likelihood_default (m : Model) : ℝ :=
  log_likelihood m m.users m.items

/-- `gradient()` (named `gradient'` since Mathlib takes the plain name): start from `(-users/sigma_u_sq, -items/sigma_v_sq)` and, for
every rating `(i, j, r)`, add `items[j, :] * ((r - r_hat)/sigma_sq)` into row
`i` of the first component and `users[i, :] * ((r - r_hat)/sigma_sq)` into row
`j` of the second. -/
def gradient' (m : Model) : Mat × Mat :=
  m.ratings.foldl
    (fun g t =>
      (fun i k =>
          g.1 i k +
            if i = t.1 then
              m.items t.2.1 k * ((t.2.2 - dotvec m.latent_d (m.users t.1) (m.items t.2.1)) / m.sigma_sq)
            else 0,
        fun j k =>
          g.2 j k +
            if j = t.2.1 then
              m.users t.1 k * ((t.2.2 - dotvec m.latent_d (m.users t.1) (m.items t.2.1)) / m.sigma_sq)
            else 0))
    (fun i k => -(m.users i k) / m.sigma_u_sq, fun j k => -(m.items j k) / m.sigma_v_sq)

/-- `A.T` of a 2-D array. -/
def transposeMat (A : Mat) : Mat := fun i j => A j i

/-- `np.dot(A, B)` for 2-D arrays with inner dimension `inner`. -/
def npdot (inner : ℕ) (A B : Mat) : Mat :=
  fun i j => ∑ k in Finset.range inner, A i k * B k j

/-- `predicted_matrix()` = `np.dot(self.users, self.items.T)`. -/
def predicted_matrix (m : Model) : Mat :=
  npdot m.latent_d m.users (transposeMat m.items)

/-- Numpy broadcasting of one dimension pair: two sizes are compatible when
they are equal or one of them is `1`; the broadcast size is the larger one. -/
def bcastDim (a b : ℕ) : Option ℕ :=
  if a = b then some a
  else if a = 1 then some b
  else if b = 1 then some a
  else none

/-- Index into a broadcast dimension: an axis of size `1` is repeated. -/
def bIdx (dim i : ℕ) : ℕ :=
  if dim = 1 then 0 else i

/-- `rmse(real)` = `np.sqrt(((real - self.predicted_matrix())**2).sum() / real.size)`
for a 2-D `real` of shape `rr × rc`.  The source performs no shape check of its
own: `real - predicted` follows numpy broadcasting, raising (`none`) exactly
when some dimension pair is incompatible, and the denominator is `real.size =
rr * rc`. -/
def rmse (m : Model) (rr rc : ℕ) (real : Mat) : Option ℝ :=
  match bcastDim rr m.num_users, bcastDim rc m.num_items with
  | some br, some bc =>
      some (Real.sqrt
        ((∑ i in Finset.range br, ∑ j in Finset.range bc,
            (real (bIdx rr i) (bIdx rc j) -
              predicted_matrix m (bIdx m.num_users i) (bIdx m.num_items j)) ^ 2) /
          (rr * rc)))
  | _, _ => none

end

noncomputable section

/-- Outcome of one pass of the inner `while True` loop of `fit_lls`: whether
the step was accepted, the factor matrices afterwards (`new_users/new_items`
on accept, the untouched `self.users/self.items` on reject), the local
learning rate afterwards, the last computed `new_ll`, and whether `converged`
was set. -/
structure InnerRes : Type where
  accepted : Bool
  users : Mat
  items : Mat
  lr : ℝ
  new_ll : ℝ
  converged : Bool

/-- One proposed step `current + lr * grad`. -/
def propose (A : Mat) (lr : ℝ) (g : Mat) : Mat :=
  fun i k => A i k + lr * g i k

/-- The inner `while True` loop of `fit_lls`, with explicit fuel: propose a
step at the current `lr`; if the likelihood improves, accept it, grow `lr` by
`1.25` and record convergence when the improvement is below `stop_thresh`;
otherwise halve `lr`, converging (without accepting) once `lr` drops below
`min_learning_rate`. -/
def innerLoop (m : Model) (gU gV : Mat) : ℝ → ℝ → ℕ → Option InnerRes
  | _, _, 0 => none
  | lr, old_ll, fuel + 1 =>
      if old_ll < log_likelihood m (propose m.users lr gU) (propose m.items lr gV) then
        some
          { accepted := true
            users := propose m.users lr gU
            items := propose m.items lr gV
            lr := lr * 1.25
            new_ll := log_likelihood m (propose m.users lr gU) (propose m.items lr gV)
            converged :=
              if log_likelihood m (propose m.users lr gU) (propose m.items lr gV) - old_ll <
                  m.stop_thresh then true else false }
      else if lr * 0.5 < m.min_learning_rate then
        some
          { accepted := false
            users := m.users
            items := m.items
            lr := lr * 0.5
            new_ll := log_likelihood m (propose m.users lr gU) (propose m.items lr gV)
            converged := true }
      else innerLoop m gU gV (lr * 0.5) old_ll fuel

/-- The outer `while not converged` loop of `fit_lls`, with explicit fuel.
Returns the final model, the list of yielded log-likelihood values, and a flag
recording whether the final yield came from a rejected step (the
`lr < min_learning_rate` exit, which still executes `yield new_ll`). -/
def fitLoop (m : Model) : ℝ → ℝ → ℕ → Option (Model × List ℝ × Bool)
  | _, _, 0 => none
  | lr, old_ll, fuel + 1 =>
      match innerLoop m (gradient' m).1 (gradient' m).2 lr old_ll (fuel + 1) with
      | none => none
      | some r =>
          if r.converged then
            some ({ m with users := r.users, items := r.items }, [r.new_ll], ! r.accepted)
          else
            match fitLoop { m with users := r.users, items := r.items } r.lr r.new_ll fuel with
            | none => none
            | some p => some (p.1, r.new_ll :: p.2.1, p.2.2)

/-- `fit_lls()` consumed to exhaustion: starts from the stored
`self.learning_rate` and `self.log_likelihood()`. -/
def fitLls (m : Model) (fuel : ℕ) : Option (Model × List ℝ × Bool) :=
  fitLoop m m.learning_rate (log_likelihood m m.users m.items) fuel

/-- The spec's emission pattern for the yielded log-likelihoods: every yield
strictly exceeds its predecessor (`prev` seeds with the initial
log-likelihood), except that when `rejectedLast = true` the final yield came
from a rejected step and is merely `≤` its predecessor. -/
def monoEmits (prev : ℝ) : List ℝ → Bool → Prop
  | [], _ => True
  | [x], true => x ≤ prev
  | [x], false => prev < x
  | x :: y :: rest, rejectedLast => prev < x ∧ monoEmits x (y :: rest) rejectedLast

/-- The claim's (unconditional) emission pattern: every yielded value strictly
exceeds its predecessor, the first strictly exceeding the seed. -/
def emitsStrictlyIncreasing (prev : ℝ) : List ℝ → Prop
  | [] => True
  | x :: rest => prev < x ∧ emitsStrictlyIncreasing x rest

/-- Modelled from the spec's wording of the reference formula (claim C1):
`log_likelihood` with *squared* Frobenius norms as the two penalty terms (both
taken from the row factors, as the spec's documented defect states). -/
def log_likelihood_claimed (m : Model) (users items : Mat) : ℝ :=
  -((m.ratings.map
      (fun t => (t.2.2 - dotvec m.latent_d (users t.1) (items t.2.1)) ^ 2)).sum) / (2 * m.sigma_sq)
    - (∑ i in Finset.range m.num_users, ∑ k in Finset.range m.latent_d, (users i k) ^ 2) /
        (2 * m.sigma_u_sq)
    - (∑ i in Finset.range m.num_users, ∑ k in Finset.range m.latent_d, (users i k) ^ 2) /
        (2 * m.sigma_v_sq)

/-- The rated/unrated partition invariant of the data model. -/
def partitionInv (m : Model) : Prop :=
  (∀ p ∈ m.rated, p ∉ m.unrated) ∧ m.rated ∪ m.unrated = grid m.num_users m.num_items

/-- The all-zeroes matrix (a possible value of `np.random.random`, which
draws from `[0, 1)`). -/
def zeroMat : Mat := fun _ _ => 0

/-- A concrete 1×1 model: one rating `(0, 0, 0.0)`, `latent_d = 1`, both
factor draws zero.  Its log-likelihood is `0` and its gradient vanishes, so
`fit_lls` can never find an improving step. -/
def zeroModel : Model :=
  { latent_d := 1
    num_users := 1
    num_items := 1
    learning_rate := 1e-4
    min_learning_rate := 1e-10
    stop_thresh := 1e-2
    sigma_sq := 1
    sigma_u_sq := 10
    sigma_v_sq := 10
    ratings := [(0, 0, 0)]
    users := zeroMat
    items := zeroMat
    rated := {(0, 0)}
    unrated := ∅ }

/-- A concrete 1×1 model whose row factor is the constant `2`: its Frobenius
norm is `2` while its squared Frobenius norm is `4`, separating the code's
penalty terms from the claimed ones. -/
def normModel : Model :=
  { zeroModel with users := fun _ _ => 2 }

/-- A concrete 2×2 model: one rating `(1, 1, 0.0)`, `latent_d = 1`, zero
factor draws; three cells are unrated. -/
def gridModel : Model :=
  { latent_d := 1
    num_users := 2
    num_items := 2
    learning_rate := 1e-4
    min_learning_rate := 1e-10
    stop_thresh := 1e-2
    sigma_sq := 1
    sigma_u_sq := 10
    sigma_v_sq := 10
    ratings := [(1, 1, 0)]
    users := zeroMat
    items := zeroMat
    rated := {(1, 1)}
    unrated := {(0, 0), (0, 1), (1, 0)} }

end

/-! ## Helper lemmas -/

lemma foldl_add_map (f : Rating → ℝ) :
    ∀ (l : List Rating) (a : ℝ), l.foldl (fun acc t => acc + f t) a = a + (l.map f).sum := by
  intro l
  induction l with
  | nil => intro a; simp
  | cons t ts ih => intro a; simp [ih]; ring

lemma setstate_getstate (m0 m : Model) : setstate m0 (getstate m) = m := rfl

lemma le_maxRow {r : Rating} {rts : List Rating} (h : r ∈ rts) : r.1 ≤ maxRow rts := by
  induction rts with
  | nil => cases h
  | cons t ts ih =>
      rcases List.mem_cons.mp h with h1 | h2
      · subst h1; exact le_max_left _ _
      · exact le_trans (ih h2) (by simp [maxRow, List.foldr])

lemma le_maxCol {r : Rating} {rts : List Rating} (h : r ∈ rts) : r.2.1 ≤ maxCol rts := by
  induction rts with
  | nil => cases h
  | cons t ts ih =>
      rcases List.mem_cons.mp h with h1 | h2
      · subst h1; exact le_max_left _ _
      · exact le_trans (ih h2) (by simp [maxCol, List.foldr])

lemma pairsOf_subset_grid (rts : List Rating) :
    pairsOf rts ⊆ grid (maxRow rts + 1) (maxCol rts + 1) := by
  intro p hp
  simp only [pairsOf, List.mem_toFinset, List.mem_map] at hp
  obtain ⟨r, hr, hpr⟩ := hp
  subst hpr
  simp only [grid, Finset.mem_product, Finset.mem_range]
  exact ⟨Nat.lt_succ_of_le (le_maxRow hr), Nat.lt_succ_of_le (le_maxCol hr)⟩

lemma innerLoop_spec :
    ∀ (fuel : ℕ) (m : Model) (gU gV : Mat) (lr old_ll : ℝ) (r : InnerRes),
      innerLoop m gU gV lr old_ll fuel = some r →
      (r.accepted = true → old_ll < r.new_ll) ∧
      (r.accepted = false → r.new_ll ≤ old_ll ∧ r.converged = true) := by
  intro fuel
  induction fuel with
  | zero => intro m gU gV lr old_ll r h; simp [innerLoop] at h
  | succ f ih =>
      intro m gU gV lr old_ll r h
      rw [innerLoop] at h
      by_cases h1 : old_ll < log_likelihood m (propose m.users lr gU) (propose m.items lr gV)
      · rw [if_pos h1] at h
        cases h
        exact ⟨fun _ => h1, fun hacc => by simp at hacc⟩
      · rw [if_neg h1] at h
        by_cases h2 : lr * 0.5 < m.min_learning_rate
        · rw [if_pos h2] at h
          cases h
          exact ⟨fun hacc => by simp at hacc, fun _ => ⟨le_of_not_lt h1, rfl⟩⟩
        · rw [if_neg h2] at h
          exact ih m gU gV (lr * 0.5) old_ll r h

lemma fitLoop_some_ne_nil :
    ∀ (fuel : ℕ) (m : Model) (lr old_ll : ℝ) (res : Model × List ℝ × Bool),
      fitLoop m lr old_ll fuel = some res → res.2.1 ≠ [] := by
  intro fuel m lr old_ll res h
  cases fuel with
  | zero => simp [fitLoop] at h
  | succ f =>
      rw [fitLoop] at h
      split at h
      · cases h
      · split_ifs at h with hc
        · cases h; simp
        · split at h
          · cases h
          · cases h; simp

lemma fitLoop_frame :
    ∀ (fuel : ℕ) (m : Model) (lr old_ll : ℝ) (res : Model × List ℝ × Bool),
      fitLoop m lr old_ll fuel = some res →
      res.1 = { m with users := res.1.users, items := res.1.items } := by
  intro fuel
  induction fuel with
  | zero => intro m lr old_ll res h; simp [fitLoop] at h
  | succ f ih =>
      intro m lr old_ll res h
      rw [fitLoop] at h
      cases hin : innerLoop m (gradient' m).1 (gradient' m).2 lr old_ll (f + 1) with
      | none => rw [hin] at h; cases h
      | some r =>
          rw [hin] at h
          dsimp only at h
          split_ifs at h with hc
          · cases h; rfl
          · cases hrec : fitLoop { m with users := r.users, items := r.items } r.lr r.new_ll f with
            | none => rw [hrec] at h; cases h
            | some p =>
                rw [hrec] at h
                dsimp only at h
                cases h
                exact ih { m with users := r.users, items := r.items } r.lr r.new_ll p hrec

lemma fitLoop_mono :
    ∀ (fuel : ℕ) (m : Model) (lr old_ll : ℝ) (res : Model × List ℝ × Bool),
      fitLoop m lr old_ll fuel = some res → monoEmits old_ll res.2.1 res.2.2 := by
  intro fuel
  induction fuel with
  | zero => intro m lr old_ll res h; simp [fitLoop] at h
  | succ f ih =>
      intro m lr old_ll res h
      rw [fitLoop] at h
      cases hin : innerLoop m (gradient' m).1 (gradient' m).2 lr old_ll (f + 1) with
      | none => rw [hin] at h; cases h
      | some r =>
          rw [hin] at h
          have hspec := innerLoop_spec (f + 1) m (gradient' m).1 (gradient' m).2 lr old_ll r hin
          dsimp only at h
          split_ifs at h with hc
          · cases h
            cases hacc : r.accepted with
            | true => simp [monoEmits, hacc, hspec.1 hacc]
            | false => simp [monoEmits, hacc, (hspec.2 hacc).1]
          · cases hrec : fitLoop { m with users := r.users, items := r.items } r.lr r.new_ll f with
            | none => rw [hrec] at h; cases h
            | some p =>
                rw [hrec] at h
                dsimp only at h
                cases h
                have hne := fitLoop_some_ne_nil f { m with users := r.users, items := r.items } r.lr r.new_ll p hrec
                have hmono := ih { m with users := r.users, items := r.items } r.lr r.new_ll p hrec
                have hacc : r.accepted = true := by
                  cases hacc : r.accepted with
                  | true => rfl
                  | false => exact absurd ((hspec.2 hacc).2) hc
                obtain ⟨y, rest, hl⟩ := List.exists_cons_of_ne_nil hne
                rw [hl] at hmono
                rw [hl]
                exact ⟨hspec.1 hacc, hmono⟩

lemma ll_zeroModel : log_likelihood zeroModel zeroModel.users zeroModel.items = 0 := by
  simp [log_likelihood, zeroModel, zeroMat, dotvec, npnorm]

lemma ll_propose_zero (lr : ℝ) :
    log_likelihood zeroModel (propose zeroModel.users lr (gradient' zeroModel).1)
      (propose zeroModel.items lr (gradient' zeroModel).2) = 0 := by
  simp [log_likelihood, zeroModel, zeroMat, gradient', propose, dotvec, npnorm]

lemma innerLoop_zero :
    ∀ (f : ℕ) (lr : ℝ), 0 < lr → lr * (1 / 2) ^ f < (1e-10 : ℝ) →
      ∃ lr', innerLoop zeroModel (gradient' zeroModel).1 (gradient' zeroModel).2 lr 0 (f + 1) =
        some { accepted := false, users := zeroModel.users, items := zeroModel.items,
               lr := lr', new_ll := 0, converged := true } := by
  intro f
  induction f with
  | zero =>
      intro lr hpos hlt
      have hl : lr < (1e-10 : ℝ) := by simpa using hlt
      have hmin : lr * 0.5 < zeroModel.min_learning_rate := by
        simp only [zeroModel]
        nlinarith
      refine ⟨lr * 0.5, ?_⟩
      rw [innerLoop, ll_propose_zero, if_neg (lt_irrefl (0 : ℝ)), if_pos hmin]
  | succ f ihf =>
      intro lr hpos hlt
      by_cases hmin : lr * 0.5 < zeroModel.min_learning_rate
      · refine ⟨lr * 0.5, ?_⟩
        rw [innerLoop, ll_propose_zero, if_neg (lt_irrefl (0 : ℝ)), if_pos hmin]
      · have hpos' : 0 < lr * 0.5 := mul_pos hpos (by norm_num)
        have hlt' : lr * 0.5 * (1 / 2) ^ f < (1e-10 : ℝ) := by
          have : lr * 0.5 * (1 / 2) ^ f = lr * (1 / 2) ^ (f + 1) := by ring
          rw [this]; exact hlt
        obtain ⟨lr', hrec⟩ := ihf (lr * 0.5) hpos' hlt'
        refine ⟨lr', ?_⟩
        rw [innerLoop, ll_propose_zero, if_neg (lt_irrefl (0 : ℝ)), if_neg hmin]
        exact hrec

lemma fitLls_zeroModel : fitLls zeroModel 21 = some (zeroModel, [0], true) := by
  obtain ⟨lr', hin⟩ := innerLoop_zero 20 (1e-4 : ℝ) (by norm_num) (by norm_num)
  rw [fitLls, ll_zeroModel]
  show fitLoop zeroModel zeroModel.learning_rate 0 (20 + 1) = _
  rw [fitLoop]
  have hlr : zeroModel.learning_rate = (1e-4 : ℝ) := rfl
  rw [hlr, hin]
  dsimp only
  rw [if_pos rfl]
  rfl

lemma init_zeroModel : init [(0, 0, 0)] 1 zeroMat zeroMat = some zeroModel := by
  rw [init, if_neg (by simp)]
  congr 1

lemma init_gridModel : init [(1, 1, 0)] 1 zeroMat zeroMat = some gridModel := by
  rw [init, if_neg (by simp)]
  congr 1

/-! ## Claims -/

/-- C1 (counterexample): on the concrete 1×1 model whose row-factor matrix is
the constant `2`, `log_likelihood` (which divides the *unsquared* Frobenius
norm `2` by each `2·sigma`) differs from the claimed formula (which divides
the *squared* Frobenius norm `4`): the code returns `-0.2`, the claim says
`-0.4`. -/
theorem c1_counterexample :
    log_likelihood normModel normModel.users normModel.items ≠
      log_likelihood_claimed normModel normModel.users normModel.items := by
  have h4 : Real.sqrt 4 = 2 := by
    rw [show (4 : ℝ) = 2 ^ 2 by norm_num, Real.sqrt_sq (by norm_num : (0 : ℝ) ≤ 2)]
  simp [log_likelihood, log_likelihood_claimed, normModel, zeroModel, zeroMat, dotvec, npnorm,
    h4]
  norm_num

/-- C1 (amended): for every model and any supplied factor matrices `U`, `V`,
`log_likelihood U V` returns
`-Σ(r - r̂)²/(2·sigma_sq) - ‖U‖_F/(2·sigma_u_sq) - ‖U‖_F/(2·sigma_v_sq)`
where `r̂ = U[i]·V[j]` for each rating `(i, j, r)`: both penalty terms are
*unsquared* Frobenius norms, and both are computed from the row-factor matrix
`U` (the documented defect); with no arguments it computes the same on the
model's current factor matrices. -/
theorem c1_log_likelihood_formula (m : Model) (users items : Mat) :
    log_likelihood m users items =
      -((m.ratings.map
          (fun t => (t.2.2 - dotvec m.latent_d (users t.1) (items t.2.1)) ^ 2)).sum) /
          (2 * m.sigma_sq)
        - Real.sqrt (∑ i in Finset.range m.num_users, ∑ k in Finset.range m.latent_d,
            (users i k) ^ 2) / (2 * m.sigma_u_sq)
        - Real.sqrt (∑ i in Finset.range m.num_users, ∑ k in Finset.range m.latent_d,
            (users i k) ^ 2) / (2 * m.sigma_v_sq) ∧
      log_likelihood_default m = log_likelihood m m.users m.items := by
  constructor
  · rw [log_likelihood,
      foldl_add_map (fun t => (t.2.2 - dotvec m.latent_d (users t.1) (items t.2.1)) ^ 2)
        m.ratings 0, zero_add, npnorm]
  · rfl

/-- C8 (confirmed): `predicted_matrix()` is exactly the matrix product
`rowFactors · colFactorsᵗ`: entry `(i, j)` is the dot product of row `i` of
`users` with row `j` of `items`, over the dense `num_rows × num_cols` grid. -/
theorem c8_predicted_matrix (m : Model) (i j : ℕ) :
    predicted_matrix m i j = ∑ k in Finset.range m.latent_d, m.users i k * m.items j k := rfl

/-- C7 (confirmed): `__getstate__` collects every field of the model and
`__setstate__` applied to that dictionary on any model of the class restores
all of them, so the round trip reconstructs a value-equal model regardless of
the receiver's prior state. -/
theorem c7_state_roundtrip (m m0 : Model) : setstate m0 (getstate m) = m := rfl

/-- C4 (confirmed): every validly constructed model satisfies the
rated/unrated partition invariant (disjoint, union the full
`[0,num_rows) × [0,num_cols)` grid), and every successful `add_ratings` call
preserves it. -/
theorem c4_partition :
    (∀ (rts : List Rating) (d : ℕ) (randU randV : Mat) (m : Model),
        init rts d randU randV = some m → partitionInv m) ∧
    (∀ (m : Model) (extra : List Rating) (m' : Model),
        partitionInv m → add_ratings m extra = (m', none) → partitionInv m') := by
  constructor
  · intro rts d randU randV m h
    rw [init] at h
    split_ifs at h with he
    all_goals cases h
    refine ⟨?_, ?_⟩
    · intro p hp hmem
      exact (Finset.mem_sdiff.mp hmem).2 hp
    · exact Finset.union_sdiff_of_subset (pairsOf_subset_grid rts)
  · intro m extra m' hinv hadd
    rw [add_ratings] at hadd
    split_ifs at hadd with h1 h2 h3
    all_goals try (injection hadd with hfst hsnd; exact Option.noConfusion hsnd)
    have hm : m' =
        { m with
          rated := m.rated ∪ pairsOf extra
          unrated := m.unrated \ pairsOf extra
          ratings := m.ratings ++ extra } :=
      (congrArg Prod.fst hadd).symm
    subst hm
    refine ⟨?_, ?_⟩
    · intro p hp hmem
      have hmem' := Finset.mem_sdiff.mp hmem
      rcases Finset.mem_union.mp hp with hl | hr
      · exact hinv.1 p hl hmem'.1
      · exact hmem'.2 hr
    · show (m.rated ∪ pairsOf extra) ∪ (m.unrated \ pairsOf extra) =
        grid m.num_users m.num_items
      rw [Finset.union_assoc, Finset.union_sdiff_of_subset h3]
      exact hinv.2

/-- C4 (witness): the invariant holds for the constructor output `zeroModel`
and is preserved by the successful call `add_ratings gridModel [(0, 0, 1)]`. -/
theorem c4_partition_witness :
    partitionInv zeroModel ∧ partitionInv (add_ratings gridModel [(0, 0, 1)]).1 := by
  constructor
  · exact c4_partition.1 [(0, 0, 0)] 1 zeroMat zeroMat zeroModel init_zeroModel
  · exact c4_partition.2 gridModel [(0, 0, 1)] (add_ratings gridModel [(0, 0, 1)]).1
      (by constructor
          · decide
          · decide)
      (by rfl)

/-- C3 (counterexample): on the 1×1 model whose only cell `(0, 0)` is rated,
the batch `[(0, 0, 2), (3, 0, 1)]` contains the already-rated pair `(0, 0)`,
yet `add_ratings` fails with the bounds `assert` (row `3` is out of range,
and the asserts run before the duplicate check), not with
`DuplicateRatingError`; the state is left unchanged. -/
theorem c3_counterexample :
    add_ratings zeroModel [(0, 0, 2), (3, 0, 1)] = (zeroModel, some PMFErr.assertFail) ∧
      (0, 0) ∈ zeroModel.rated ∧ PMFErr.assertFail ≠ PMFErr.duplicateRating := by
  refine ⟨?_, by decide, by decide⟩
  rw [add_ratings, if_pos]
  intro hall
  exact absurd (hall (3, 0, 1) (by simp)) (by decide)

/-- C3 (amended): for every model whose rated and unrated sets are disjoint
(an invariant of all validly constructed models, cf. `c4_partition`), a batch
containing an already-rated pair makes `add_ratings` fail and leave the state
unchanged; the error is `DuplicateRatingError` provided every index in the
batch is in range — a batch that additionally contains an out-of-range index
fails the bounds assertion instead (the asserts run first). -/
theorem c3_add_ratings_duplicate (m : Model) (extra : List Rating) (i j : ℕ) (v : ℝ)
    (hmem : (i, j, v) ∈ extra) (hdup : (i, j) ∈ m.rated)
    (hdisj : ∀ p ∈ m.rated, p ∉ m.unrated) :
    (add_ratings m extra).2.isSome = true ∧ (add_ratings m extra).1 = m ∧
      ((∀ r ∈ extra, r.1 + 1 ≤ m.num_users ∧ r.2.1 + 1 ≤ m.num_items) →
        (add_ratings m extra).2 = some PMFErr.duplicateRating) := by
  have hnsub : ¬ (pairsOf extra ⊆ m.unrated) := by
    intro hsub
    have hpair : (i, j) ∈ pairsOf extra := by
      simp only [pairsOf, List.mem_toFinset, List.mem_map]
      exact ⟨(i, j, v), hmem, rfl⟩
    exact hdisj (i, j) hdup (hsub hpair)
  rw [add_ratings]
  split_ifs with h1 h2
  · exact ⟨rfl, rfl, fun _ => rfl⟩
  · exact ⟨rfl, rfl, fun hrange => absurd (fun r hr => (hrange r hr).2) h2⟩
  · exact ⟨rfl, rfl, fun hrange => absurd (fun r hr => (hrange r hr).1) h1⟩

/-- C3 (witness): on the 1×1 model, re-rating the rated cell `(0, 0)` with an
otherwise in-range batch yields `DuplicateRatingError` and an unchanged
model. -/
theorem c3_witness :
    (add_ratings zeroModel [(0, 0, 5)]).2 = some PMFErr.duplicateRating ∧
      (add_ratings zeroModel [(0, 0, 5)]).1 = zeroModel := by
  have h := c3_add_ratings_duplicate zeroModel [(0, 0, 5)] 0 0 5 (by simp) (by decide)
    (by decide)
  exact ⟨h.2.2 (by decide), h.2.1⟩

/-- C10 (confirmed): a batch containing a rating with row index `≥ num_rows`
or column index `≥ num_cols` makes `add_ratings` fail on the bounds asserts
before any state is modified, and `add_ratings` never changes `num_users` or
`num_items` (they are set only by the constructor). -/
theorem c10_add_ratings_bounds :
    (∀ (m : Model) (extra : List Rating) (r : Rating), r ∈ extra →
        m.num_users ≤ r.1 ∨ m.num_items ≤ r.2.1 →
        add_ratings m extra = (m, some PMFErr.assertFail)) ∧
    (∀ (m : Model) (extra : List Rating),
        (add_ratings m extra).1.num_users = m.num_users ∧
        (add_ratings m extra).1.num_items = m.num_items) := by
  constructor
  · intro m extra r hr hor
    rw [add_ratings]
    rcases hor with h | h
    · have h1 : ¬ ∀ r' ∈ extra, r'.1 + 1 ≤ m.num_users := fun hall =>
        absurd (hall r hr) (by omega)
      rw [if_pos h1]
    · have h2 : ¬ ∀ r' ∈ extra, r'.2.1 + 1 ≤ m.num_items := fun hall =>
        absurd (hall r hr) (by omega)
      by_cases h1 : ∀ r' ∈ extra, r'.1 + 1 ≤ m.num_users
      · rw [if_neg (not_not_intro h1), if_pos h2]
      · rw [if_pos h1]
  · intro m extra
    rw [add_ratings]
    split_ifs <;> exact ⟨rfl, rfl⟩

/-- C10 (witness): on the 1×1 model, the batch `[(3, 0, 1)]` (row `3 ≥ 1`)
fails the assert with the state unchanged, and `num_users` is untouched. -/
theorem c10_witness :
    add_ratings zeroModel [(3, 0, 1)] = (zeroModel, some PMFErr.assertFail) ∧
      (add_ratings zeroModel [(3, 0, 1)]).1.num_users = zeroModel.num_users := by
  exact ⟨c10_add_ratings_bounds.1 zeroModel [(3, 0, 1)] (3, 0, 1) (by simp)
    (Or.inl (by decide)), (c10_add_ratings_bounds.2 zeroModel [(3, 0, 1)]).1⟩

lemma bIdx_self {d i : ℕ} (h : i ∈ Finset.range d) : bIdx d i = i := by
  rw [bIdx]
  split_ifs with h1
  · subst h1
    simp only [Finset.mem_range, Nat.lt_one_iff] at h
    omega
  · rfl

/-- C6 (counterexample): on the 2×2 model, `rmse` applied to a 1×1 ground
truth does not fail — numpy broadcasting stretches the `1`-sized axes — and
returns a value (here `0`), although the shape `(1, 1)` differs from the
model's `(2, 2)`. -/
theorem c6_counterexample :
    rmse gridModel 1 1 zeroMat = some 0 ∧ 1 ≠ gridModel.num_users := by
  constructor
  · rw [rmse]
    have h1 : bcastDim 1 gridModel.num_users = some 2 := by rw [bcastDim]; norm_num [gridModel]
    have h2 : bcastDim 1 gridModel.num_items = some 2 := by rw [bcastDim]; norm_num [gridModel]
    rw [h1, h2]
    dsimp only
    rw [show ((0 : ℝ) : ℝ) = Real.sqrt 0 from (Real.sqrt_zero).symm]
    congr 1
    simp [zeroMat, predicted_matrix, npdot, transposeMat, gridModel, dotvec, bIdx]
  · decide

/-- C6 (amended): `rmse(trueMatrix)` fails exactly when the shape of
`trueMatrix` is not numpy-broadcast-compatible with `(num_rows, num_cols)` —
a mismatched but broadcastable shape (e.g. a dimension of size 1) silently
computes a broadcast value instead of failing; when the shapes match exactly
it returns `sqrt(Σ(trueMatrix − predicted_matrix)² / number_of_entries)` over
all entries. -/
theorem c6_rmse_shape (m : Model) (rr rc : ℕ) (real : Mat) :
    (rmse m rr rc real = none ↔
      bcastDim rr m.num_users = none ∨ bcastDim rc m.num_items = none) ∧
    (rr = m.num_users → rc = m.num_items →
      rmse m rr rc real = some (Real.sqrt
        ((∑ i in Finset.range rr, ∑ j in Finset.range rc,
            (real i j - predicted_matrix m i j) ^ 2) / (rr * rc)))) := by
  constructor
  · cases h1 : bcastDim rr m.num_users with
    | none =>
        cases h2 : bcastDim rc m.num_items with
        | none => rw [rmse, h1, h2]; simp
        | some bc => rw [rmse, h1, h2]; simp
    | some br =>
        cases h2 : bcastDim rc m.num_items with
        | none => rw [rmse, h1, h2]; simp
        | some bc => rw [rmse, h1, h2]; simp
  · intro hrr hrc
    subst hrr
    subst hrc
    have h1 : bcastDim m.num_users m.num_users = some m.num_users := by
      rw [bcastDim]; simp
    have h2 : bcastDim m.num_items m.num_items = some m.num_items := by
      rw [bcastDim]; simp
    rw [rmse, h1, h2]
    dsimp only
    have hs : (∑ i in Finset.range m.num_users, ∑ j in Finset.range m.num_items,
        (real (bIdx m.num_users i) (bIdx m.num_items j) -
          predicted_matrix m (bIdx m.num_users i) (bIdx m.num_items j)) ^ 2) =
        ∑ i in Finset.range m.num_users, ∑ j in Finset.range m.num_items,
          (real i j - predicted_matrix m i j) ^ 2 := by
      refine Finset.sum_congr rfl (fun i hi => Finset.sum_congr rfl (fun j hj => ?_))
      rw [bIdx_self hi, bIdx_self hj]
    rw [hs]

/-- C6 (witness): on the 2×2 model with a matching-shape 2×2 ground truth,
`rmse` returns the root-mean-squared error formula. -/
theorem c6_witness :
    rmse gridModel 2 2 zeroMat = some (Real.sqrt
      ((∑ i in Finset.range 2, ∑ j in Finset.range 2,
          (zeroMat i j - predicted_matrix gridModel i j) ^ 2) / (2 * 2))) := by
  exact (c6_rmse_shape gridModel 2 2 zeroMat).2 rfl rfl

/-- A model like `gridModel` but with a non-default learning rate, as left
behind by earlier fitting; used to exhibit that copying resets the config. -/
def tweakedModel : Model := { gridModel with learning_rate := 7 }

/-- C9 (confirmed): `__copy__` re-runs the constructor on the original's
ratings and latent dimension and then restores the fresh object's own state
onto itself (a no-op).  Consequently, for any model in a
constructor-reachable state (rated/unrated derived from its ratings, dims
`max index + 1`), the copy shares the original's ratings, rated/unrated sets
and dimensions, but its factor matrices are the new uniform-random draws and
its config scalars are the constructor defaults, not the original's current
values. -/
theorem c9_copy (m : Model) (randU randV : Mat) (c : Model)
    (hr : m.rated = pairsOf m.ratings)
    (hu : m.unrated = grid m.num_users m.num_items \ pairsOf m.ratings)
    (hn : m.num_users = maxRow m.ratings + 1)
    (hm : m.num_items = maxCol m.ratings + 1)
    (hc : copyModel m randU randV = some c) :
    c.ratings = m.ratings ∧ c.rated = m.rated ∧ c.unrated = m.unrated ∧
      c.num_users = m.num_users ∧ c.num_items = m.num_items ∧ c.latent_d = m.latent_d ∧
      c.users = randU ∧ c.items = randV ∧
      c.learning_rate = 1e-4 ∧ c.min_learning_rate = 1e-10 ∧ c.stop_thresh = 1e-2 ∧
      c.sigma_sq = 1 ∧ c.sigma_u_sq = 10 ∧ c.sigma_v_sq = 10 := by
  rw [copyModel, init] at hc
  split_ifs at hc with he
  all_goals try (rw [Option.map_none'] at hc; exact Option.noConfusion hc)
  rw [Option.map_some', setstate_getstate] at hc
  injection hc with hc2
  subst hc2
  refine ⟨rfl, hr.symm, ?_, hn.symm, hm.symm, rfl, rfl, rfl, rfl, rfl, rfl, rfl, rfl, rfl⟩
  rw [hu, hn, hm]

/-- C9 (witness): copying `tweakedModel` (whose learning rate was moved to
`7`) yields exactly the fresh constructor output `gridModel`: same ratings,
rated set and dims, zero-draw factors, and default learning rate `1e-4`. -/
theorem c9_witness :
    copyModel tweakedModel zeroMat zeroMat = some gridModel ∧
      gridModel.rated = tweakedModel.rated ∧ gridModel.learning_rate = 1e-4 ∧
      tweakedModel.learning_rate = 7 := by
  have hc : copyModel tweakedModel zeroMat zeroMat = some gridModel := by
    show (init [(1, 1, 0)] 1 zeroMat zeroMat).map
      (fun res => setstate res (getstate res)) = some gridModel
    rw [init_gridModel, Option.map_some', setstate_getstate]
  obtain ⟨-, h2, -, -, -, -, -, -, h9, -⟩ :=
    c9_copy tweakedModel zeroMat zeroMat gridModel rfl rfl rfl rfl hc
  exact ⟨hc, h2, h9, rfl⟩

/-- C2 (counterexample): on the concrete zero model (a constructor output
with all-zero random draws), `fit_lls` finds no improving step, halves the
learning rate until it crosses `min_learning_rate`, and then still yields the
rejected, non-improved log-likelihood `0`: the emitted sequence `[0]` does
not strictly exceed the initial log-likelihood `0`. -/
theorem c2_counterexample :
    fitLls zeroModel 21 = some (zeroModel, [0], true) ∧
      ¬ emitsStrictlyIncreasing (log_likelihood zeroModel zeroModel.users zeroModel.items)
        [0] := by
  refine ⟨fitLls_zeroModel, ?_⟩
  rw [ll_zeroModel]
  simp [emitsStrictlyIncreasing]

/-- C2 (amended): every log-likelihood yielded by `fit_lls` strictly exceeds
the previously yielded value (the first strictly exceeds the initial
log-likelihood), *except* that when the learning rate falls below the minimum
the loop marks convergence without accepting the step but still yields the
rejected step's log-likelihood — which is `≤` its predecessor — as the final
element of the sequence. -/
theorem c2_fit_lls_monotone (m : Model) (fuel : ℕ) (mf : Model) (lls : List ℝ) (rej : Bool)
    (h : fitLls m fuel = some (mf, lls, rej)) :
    monoEmits (log_likelihood m m.users m.items) lls rej :=
  fitLoop_mono fuel m m.learning_rate (log_likelihood m m.users m.items) (mf, lls, rej) h

/-- C2 (witness): on the zero model the run yields `[0]` with the
rejected-final flag set, and the emission pattern holds (`0 ≤ 0`). -/
theorem c2_witness :
    monoEmits (log_likelihood zeroModel zeroModel.users zeroModel.items) [0] true :=
  c2_fit_lls_monotone zeroModel 21 zeroModel [0] true fitLls_zeroModel

/-- C5 (counterexample): consuming `fit_lls` on the zero model performs 20
rejected retries (the run ends in the learning-rate-collapse branch), so the
claim predicts the model's `learning_rate` field ends at `1e-4 · (1/2)²⁰`;
but the field is never written back — the returned model is unchanged with
`learning_rate = 1e-4 ≠ 1e-4 · (1/2)²⁰`. -/
theorem c5_counterexample :
    fitLls zeroModel 21 = some (zeroModel, [0], true) ∧
      zeroModel.learning_rate = 1e-4 ∧ (1e-4 : ℝ) ≠ 1e-4 * (1 / 2) ^ 20 :=
  ⟨fitLls_zeroModel, rfl, by norm_num⟩

/-- C5 (amended): `fit_lls` copies `learning_rate` into a local variable and
adapts only that local copy (×1.25 on accept, ×0.5 on reject); the model's
`learning_rate` field itself and every other configuration scalar
(`min_learning_rate`, `stop_thresh`, `sigma_sq`, `sigma_u_sq`, `sigma_v_sq`)
— as well as the dimensions, ratings and rated/unrated sets — are exactly as
before the call. -/
theorem c5_fit_lls_frame (m : Model) (fuel : ℕ) (mf : Model) (lls : List ℝ) (rej : Bool)
    (h : fitLls m fuel = some (mf, lls, rej)) :
    mf.learning_rate = m.learning_rate ∧ mf.min_learning_rate = m.min_learning_rate ∧
      mf.stop_thresh = m.stop_thresh ∧ mf.sigma_sq = m.sigma_sq ∧
      mf.sigma_u_sq = m.sigma_u_sq ∧ mf.sigma_v_sq = m.sigma_v_sq ∧
      mf.latent_d = m.latent_d ∧ mf.num_users = m.num_users ∧
      mf.num_items = m.num_items ∧ mf.ratings = m.ratings ∧
      mf.rated = m.rated ∧ mf.unrated = m.unrated := by
  have hf : mf = { m with users := mf.users, items := mf.items } :=
    fitLoop_frame fuel m m.learning_rate (log_likelihood m m.users m.items) (mf, lls, rej) h
  rw [hf]
  exact ⟨rfl, rfl, rfl, rfl, rfl, rfl, rfl, rfl, rfl, rfl, rfl, rfl⟩

/-- C5 (witness): instantiated on the zero-model run. -/
theorem c5_witness :
    zeroModel.learning_rate = zeroModel.learning_rate ∧
      zeroModel.min_learning_rate = zeroModel.min_learning_rate ∧
      zeroModel.stop_thresh = zeroModel.stop_thresh ∧
      zeroModel.sigma_sq = zeroModel.sigma_sq ∧
      zeroModel.sigma_u_sq = zeroModel.sigma_u_sq ∧
      zeroModel.sigma_v_sq = zeroModel.sigma_v_sq ∧
      zeroModel.latent_d = zeroModel.latent_d ∧
      zeroModel.num_users = zeroModel.num_users ∧
      zeroModel.num_items = zeroModel.num_items ∧
      zeroModel.ratings = zeroModel.ratings ∧
      zeroModel.rated = zeroModel.rated ∧
      zeroModel.unrated = zeroModel.unrated :=
  c5_fit_lls_frame zeroModel 21 zeroModel [0] true fitLls_zeroModel
